import Mathlib

/-!
Shallow embedding of `src/lra1_tool.py` (LRA1 firmware flashing tool).

Bytes are modelled as `Nat` (with explicit masking where the code masks),
the serial input as a list of `Option Nat` (`none` = a read that times out),
per-block response statuses as an injected function `Nat → Int`, and the
Python `None`-able `mode_flag` as `Option Nat`.
-/

namespace LRA1

/-! ### Constants (src/lra1_tool.py, lines 31-48) -/

def INIT_TIMEOUT_MS : Nat := 50
def RESP_TIMEOUT_MS : Nat := 1000
def FILE_MIN_SIZE : Nat := 4096
def FILE_MAX_SIZE : Nat := 120000

def UPDATE_ADRS : Nat := 0x002000
def INIT_ADRS : Nat := 0x01fe00
def INIT_SIZE : Nat := 256 + 256

def BSL_HEADER : Nat := 0x80
def BSL_CMD_RX_DATA_BLOCK : Nat := 0x10
def BSL_CMD_RX_DATA_BLOCK_VERIFY : Nat := 0x12
def BSL_CMD_LOAD_PC : Nat := 0x17
def BSL_CMD_RX_DATA_BLOCK_FAST : Nat := 0x1b

def MAGIC_BYTES : List Nat := [0x69, 0x32, 0x2d, 0x65, 0x6c, 0x65, 0x20]

/-! ### CRC (src line 95: `binascii.crc_hqx(data, 0xffff)`)

`calc_crc` delegates to CPython's `binascii.crc_hqx`, whose C implementation
is the table-driven loop `crc = ((crc<<8)&0xff00) ^ crctab_hqx[(crc>>8)^byte]`
over a 256-entry table generated from the CRC-CCITT bit recurrence
(polynomial 0x1021).  We embed that implementation: `crc_round` is one bit
step of the recurrence, `crc_table` is the table-entry generator, and
`crc_hqx_step` is one iteration of the C loop. -/

def crc_round (c : Nat) : Nat :=
  if c &&& 0x8000 ≠ 0 then ((c <<< 1) ^^^ 0x1021) &&& 0xFFFF
  else (c <<< 1) &&& 0xFFFF

def crc_table (b : Nat) : Nat := crc_round^[8] ((b &&& 0xFF) <<< 8)

def crc_hqx_step (c b : Nat) : Nat :=
  ((c <<< 8) &&& 0xFF00) ^^^ crc_table ((c >>> 8) ^^^ b)

def calc_crc (data : List Nat) : Nat := data.foldl crc_hqx_step 0xFFFF

/-- Modelled from the spec: "CRC-CCITT, polynomial 0x1021, initial register
0xFFFF, processes bytes MSB-first, no final XOR, no bit reflection".  This is
the textbook MSB-first bitwise formulation, to be compared with the
table-driven `calc_crc` above. -/
def crc16_spec (data : List Nat) : Nat :=
  data.foldl (fun c b => crc_round^[8] (c ^^^ (b <<< 8))) 0xFFFF

/-! ### Basic mask and bound lemmas -/

theorem land_ffff (x : Nat) : x &&& 0xFFFF = x % 65536 := by
  have h := Nat.and_pow_two_sub_one_eq_mod x 16
  norm_num at h
  exact h

theorem land_ff (x : Nat) : x &&& 0xFF = x % 256 := by
  have h := Nat.and_pow_two_sub_one_eq_mod x 8
  norm_num at h
  exact h

theorem shiftRight_8 (x : Nat) : x >>> 8 = x / 256 := by
  have h := Nat.shiftRight_eq_div_pow x 8
  norm_num at h
  exact h

theorem shiftLeft_8 (x : Nat) : x <<< 8 = x * 256 := by
  have h := Nat.shiftLeft_eq x 8
  norm_num at h
  exact h

theorem crc_round_lt (c : Nat) : crc_round c < 65536 := by
  unfold crc_round
  split
  case isTrue =>
    have h := Nat.and_le_right (n := (c <<< 1) ^^^ 0x1021) (m := 0xFFFF)
    omega
  case isFalse =>
    have h := Nat.and_le_right (n := c <<< 1) (m := 0xFFFF)
    omega

theorem crc_round_iterate_lt (c : Nat) (k : Nat) (hk : 0 < k) :
    crc_round^[k] c < 65536 := by
  obtain ⟨m, rfl⟩ : ∃ m, k = m + 1 := ⟨k - 1, by omega⟩
  rw [Function.iterate_succ_apply']
  exact crc_round_lt _

theorem crc_table_lt (b : Nat) : crc_table b < 65536 :=
  crc_round_iterate_lt _ 8 (by omega)

theorem crc_hqx_step_lt (c b : Nat) : crc_hqx_step c b < 65536 := by
  unfold crc_hqx_step
  have h1 : (c <<< 8) &&& 0xFF00 < 65536 := by
    have := Nat.and_le_right (n := c <<< 8) (m := 0xFF00)
    omega
  have h2 := crc_table_lt ((c >>> 8) ^^^ b)
  have h3 : ((c <<< 8) &&& 0xFF00) ^^^ crc_table ((c >>> 8) ^^^ b) < 2 ^ 16 :=
    Nat.xor_lt_two_pow (by norm_num; omega) (by norm_num; omega)
  norm_num at h3
  exact h3

theorem calc_crc_lt (data : List Nat) : calc_crc data < 65536 := by
  unfold calc_crc
  have h : ∀ (l : List Nat) (c : Nat), c < 65536 → l.foldl crc_hqx_step c < 65536 := by
    intro l
    induction l with
    | nil => intro c hc; simpa using hc
    | cons b t ih => intro c _; exact ih _ (crc_hqx_step_lt c b)
  exact h data 0xFFFF (by norm_num)

/-! ### Response reading (src lines 97-125)

`serial_getchar_to` returns one byte or `-1` on timeout; we model the serial
input as a list of `Option Nat`, one entry per `serial_getchar_to` call
(`none` = that read times out; an exhausted list also times out).
`recv_loop` is the read loop of `recv_response`: it collects `expected_len`
bytes, failing on the first timeout.  The final `Option` of `recv_response`
models the uncaught `IndexError` of `buff[0]` when `expected_len = 0`
(never reached by the tool, which always passes 8). -/

def recv_loop : List (Option Nat) → Nat → Option (List Nat)
  | _, 0 => some []
  | [], _ + 1 => none
  | none :: _, _ + 1 => none
  | some b :: rest, n + 1 => (recv_loop rest n).map (fun l => b :: l)

/-- The decoding part of `recv_response` (src lines 119-125), applied once
all `expected_len` bytes are in `buff`: the header check on `buff[1]`, then
`res = (buff[0] << 8) | (buff[5] if expected_len > 5 else 0)`. -/
def decode_response (expected_len : Nat) (buff : List Nat) : Option Int :=
  if expected_len ≥ 2 ∧ buff.getD 1 0 ≠ BSL_HEADER then some (-3)
  else if expected_len > 5 then
    (buff[0]?).bind fun b0 =>
      (buff[5]?).map fun b5 => Int.ofNat ((b0 <<< 8) ||| b5)
  else (buff[0]?).map fun b0 => Int.ofNat (b0 <<< 8)

def recv_response (stream : List (Option Nat)) (expected_len : Nat) : Option Int :=
  match recv_loop stream expected_len with
  | none => some (-2)
  | some buff => decode_response expected_len buff

/-! ### Command framing (src lines 127-138)

`send_command` writes `[0x80, len_lo, len_hi] ++ cmd ++ [crc_lo, crc_hi]`
to the serial port; `send_command_data` is the byte string it writes. -/

def send_command_data (cmd : List Nat) : List Nat :=
  ([BSL_HEADER, cmd.length &&& 0xFF, (cmd.length >>> 8) &&& 0xFF] ++ cmd)
    ++ [calc_crc cmd &&& 0xFF, (calc_crc cmd >>> 8) &&& 0xFF]

/-! ### Firmware loading (src lines 171-192)

The file is modelled as `Option (List Nat)`: `none` = `os.stat` raised
(file not openable).  The function returns the buffer and its size, or
`none` and a negative error code, exactly like the Python pair. -/

def load_firmware (file : Option (List Nat)) : Option (List Nat) × Int :=
  match file with
  | none => (none, -1)
  | some buff =>
    if buff.length < FILE_MIN_SIZE ∨ buff.length > FILE_MAX_SIZE then (none, -2)
    else if (buff.drop 0xb8).take MAGIC_BYTES.length ≠ MAGIC_BYTES then (none, -2)
    else (some buff, Int.ofNat buff.length)

/-! ### Mode selection (src lines 64-72 and 250-253) -/

def flash_adrs_of (mode : String) : Nat :=
  if mode = "update" ∨ mode = "verify" then UPDATE_ADRS else INIT_ADRS

def mode_flag_of (mode : String) : Option Nat :=
  if mode = "update" then some BSL_CMD_RX_DATA_BLOCK
  else if mode = "verify" then some BSL_CMD_RX_DATA_BLOCK_VERIFY
  else none

/-- In `run` (src lines 250-257): init mode synthesizes `INIT_SIZE` zero
bytes and never touches the file; update and verify load the firmware. -/
def run_image (mode : String) (file : Option (List Nat)) :
    Option (List Nat) × Int :=
  if mode = "init" then (some (List.replicate INIT_SIZE 0), Int.ofNat INIT_SIZE)
  else load_firmware file

/-! ### Block transfer (src lines 141-158 and 200-241) -/

/-- Opcode selection in `send_rx_data_block` (src lines 146-149):
`cmd[0] = mode_flag if mode_flag in (VERIFY, FAST) else RX_DATA_BLOCK`. -/
def opcodeOf : Option Nat → Nat
  | some f =>
    if f = BSL_CMD_RX_DATA_BLOCK_VERIFY ∨ f = BSL_CMD_RX_DATA_BLOCK_FAST then f
    else BSL_CMD_RX_DATA_BLOCK
  | none => BSL_CMD_RX_DATA_BLOCK

/-- Checksum update of the transfer loop (src line 225):
`checksum = (checksum + byte) & 0xFFFF`. -/
def checksum_step (a b : Nat) : Nat := (a + b) &&& 0xFFFF

/-- The block payload `cmd[:num+4]` built by `loRa_update` together with
`send_rx_data_block` (src lines 150-155, 221-224): opcode, 24-bit address
little-endian, then the data bytes. -/
def block_payload (op adrs : Nat) (data : List Nat) : List Nat :=
  op :: (adrs &&& 0xFF) :: ((adrs >>> 8) &&& 0xFF) :: ((adrs >>> 16) &&& 0xFF) :: data

structure LoopResult where
  blocks : List (List Nat)
  checksum : Nat
  aborted : Option Int

/-- Block size selection of the loop (src line 220):
`num = 256 if self.file_size >= 256 else self.file_size`. -/
def loop_num (fs : Nat) : Nat := if fs ≥ 256 then 256 else fs

/-- The `while self.file_size > 0` loop of `loRa_update` (src lines 218-231).
State: `k` = index of the next response (responses are injected via
`resp : Nat → Int`, the value returned by `send_rx_data_block` for each
block), `cs` = running checksum, `adrs` = flash address, `index` = read
offset, `fsize` = remaining byte count.  `fuel` only bounds the recursion:
every iteration consumes at least one byte, so `fuel ≥ fsize` (the wrapper
passes `fuel = fsize`) makes the fuel-exhaustion branch unreachable. -/
def transferLoopAux (mf : Option Nat) (buff : List Nat) (resp : Nat → Int) :
    Nat → Nat → Nat → Nat → Nat → Nat → LoopResult
  | _, _, cs, _, _, 0 => ⟨[], cs, none⟩
  | 0, _, cs, _, _, _ + 1 => ⟨[], cs, none⟩
  | fuel + 1, k, cs, adrs, index, m + 1 =>
    let fs := m + 1
    let num := loop_num fs
    let data := (buff.drop index).take num
    let cs2 := data.foldl checksum_step cs
    let payload := block_payload (opcodeOf mf) adrs data
    if resp k ≠ 0 then ⟨[payload], cs2, some (resp k)⟩
    else
      let r := transferLoopAux mf buff resp fuel (k + 1) cs2 (adrs + num)
        (index + num) (fs - num)
      ⟨payload :: r.blocks, r.checksum, r.aborted⟩

structure UpdateResult where
  blocks : List (List Nat)
  checksum : Nat
  finalPayload : Option (List Nat)
  result : Int

/-- `loRa_update` after the DFU handshake (src lines 215-241): run the block
loop from the base address with checksum 0; on a non-zero block status
return it at once; otherwise send the finalize command
`[0x17, 0x00, checksum_lo, checksum_hi]` and return the status of its
8-byte response (injected as `finalStatus`). -/
def loRa_update (mf : Option Nat) (flash_adrs : Nat) (buff : List Nat)
    (resp : Nat → Int) (finalStatus : Int) : UpdateResult :=
  let r := transferLoopAux mf buff resp buff.length 0 0 flash_adrs 0 buff.length
  match r.aborted with
  | some ret => ⟨r.blocks, r.checksum, none, ret⟩
  | none =>
    ⟨r.blocks, r.checksum,
      some [BSL_CMD_LOAD_PC, 0x00, r.checksum &&& 0xFF, (r.checksum >>> 8) &&& 0xFF],
      finalStatus⟩

/-! ### DFU handshake (src lines 203-213)

One `dfu_step` is one iteration of the `while True` loop: write the probe
byte 0xAA; if the reply is 0x55, write `"i2LoRa"` and on reply 0xAA stop;
any failed iteration prints the waiting notice if it has not been printed
yet.  `replies : Nat → Int` gives the value of the i-th
`serial_getchar_to` call (`-1` = timeout); `probes` counts probe writes and
`notices` counts notice prints. -/

structure DFUState where
  readIdx : Nat
  waitFlag : Bool
  probes : Nat
  notices : Nat
  done : Bool

def dfu_init : DFUState := ⟨0, false, 0, 0, false⟩

def dfu_notice (s : DFUState) : DFUState :=
  if s.waitFlag then s else { s with waitFlag := true, notices := s.notices + 1 }

def dfu_step (replies : Nat → Int) (s : DFUState) : DFUState :=
  if s.done then s
  else
    let s1 := { s with probes := s.probes + 1 }
    if replies s1.readIdx = 0x55 then
      if replies (s1.readIdx + 1) = 0xaa then
        { s1 with readIdx := s1.readIdx + 2, done := true }
      else dfu_notice { s1 with readIdx := s1.readIdx + 2 }
    else dfu_notice { s1 with readIdx := s1.readIdx + 1 }

def dfu_run (replies : Nat → Int) (n : Nat) : DFUState :=
  (dfu_step replies)^[n] dfu_init

/-! ### Bitwise lemmas for the CRC refinement -/

theorem shiftLeft_xor_distrib (a b k : Nat) :
    (a ^^^ b) <<< k = (a <<< k) ^^^ (b <<< k) := by
  apply Nat.eq_of_testBit_eq
  intro j
  simp only [Nat.testBit_xor, Nat.testBit_shiftLeft]
  by_cases h : k ≤ j <;> simp [h]

theorem land_high_zero {l : Nat} (h : l < 32768) : l &&& 0x8000 = 0 := by
  have h1 : l &&& 2 ^ 15 = (l.testBit 15).toNat * 2 ^ 15 := Nat.and_two_pow l 15
  have h2 : l.testBit 15 = false := Nat.testBit_lt_two_pow (by norm_num; omega)
  rw [h2] at h1
  norm_num at h1 ⊢
  exact h1

theorem crc_round_linear (c : Nat) :
    crc_round c =
      ((c <<< 1) &&& 0xFFFF) ^^^ (if c &&& 0x8000 = 0 then 0 else 0x1021) := by
  unfold crc_round
  by_cases h : c &&& 0x8000 = 0
  · simp [h]
  · simp only [h, ne_eq, not_false_eq_true, if_true, if_neg h]
    rw [Nat.and_xor_distrib_right]
    have h2 : (0x1021 : Nat) &&& 0xFFFF = 0x1021 := by decide
    rw [h2]
    simp

theorem crc_round_xor_small (x l : Nat) (h : l < 32768) :
    crc_round (x ^^^ l) = crc_round x ^^^ (l <<< 1) := by
  rw [crc_round_linear, crc_round_linear]
  have hcond : (x ^^^ l) &&& 0x8000 = x &&& 0x8000 := by
    rw [Nat.and_xor_distrib_right, land_high_zero h, Nat.xor_zero]
  rw [hcond, shiftLeft_xor_distrib, Nat.and_xor_distrib_right]
  have hl1 : (l <<< 1) &&& 0xFFFF = l <<< 1 := by
    have hlt : l <<< 1 < 2 ^ 16 := by
      rw [Nat.shiftLeft_eq]
      norm_num
      omega
    have := Nat.and_pow_two_sub_one_of_lt_two_pow hlt
    norm_num at this
    exact this
  rw [hl1, Nat.xor_assoc, Nat.xor_assoc, Nat.xor_comm (l <<< 1)]

theorem crc_iterate_xor (k : Nat) :
    ∀ x l : Nat, l * 2 ^ k < 65536 →
      crc_round^[k] (x ^^^ l) = crc_round^[k] x ^^^ (l <<< k) := by
  induction k with
  | zero => intro x l _; simp
  | succ k ih =>
    intro x l h
    have hl : l < 32768 := by
      have h2 : (2 : Nat) * 2 ^ k = 2 ^ (k + 1) := (pow_succ' 2 k).symm
      have h3 : 1 ≤ 2 ^ k := Nat.one_le_two_pow
      nlinarith
    rw [Function.iterate_succ_apply, Function.iterate_succ_apply,
      crc_round_xor_small x l hl]
    have h2 : (l <<< 1) * 2 ^ k < 65536 := by
      rw [Nat.shiftLeft_eq]
      have : l * 2 ^ 1 * 2 ^ k = l * 2 ^ (k + 1) := by ring
      rw [this]
      have h4 : l * 2 ^ (k + 1) = l * 2 ^ k * 2 := by ring
      omega
    rw [ih (crc_round x) (l <<< 1) h2]
    have hshift : (l <<< 1) <<< k = l <<< (k + 1) := by
      rw [Nat.shiftLeft_eq, Nat.shiftLeft_eq, Nat.shiftLeft_eq]
      ring
    rw [hshift]

theorem testBit_ff (j : Nat) : Nat.testBit 0xFF j = decide (j < 8) := by
  have h := Nat.testBit_two_pow_sub_one 8 j
  norm_num at h ⊢
  exact h

theorem byte_decomp (c b : Nat) :
    c ^^^ (b <<< 8) = (((c >>> 8) ^^^ b) <<< 8) ^^^ (c &&& 0xFF) := by
  apply Nat.eq_of_testBit_eq
  intro j
  simp only [Nat.testBit_xor, Nat.testBit_shiftLeft, Nat.testBit_shiftRight,
    Nat.testBit_and, testBit_ff]
  by_cases h8 : 8 ≤ j
  · have hj : 8 + (j - 8) = j := by omega
    have hj2 : ¬ j < 8 := by omega
    simp [h8, hj, hj2]
  · have hj2 : j < 8 := by omega
    simp [h8, hj2]

theorem shl8_land_ff00 (c : Nat) : (c <<< 8) &&& 0xFF00 = (c &&& 0xFF) <<< 8 := by
  apply Nat.eq_of_testBit_eq
  intro j
  have hff00 : (0xFF00 : Nat) = (2 ^ 8 - 1) <<< 8 := by decide
  rw [hff00]
  simp only [Nat.testBit_and, Nat.testBit_shiftLeft, Nat.testBit_two_pow_sub_one,
    testBit_ff]
  by_cases h8 : 8 ≤ j <;> simp [h8]

theorem crc_step_eq (c b : Nat) (hc : c < 65536) (hb : b < 256) :
    crc_round^[8] (c ^^^ (b <<< 8)) = crc_hqx_step c b := by
  have hhi : c >>> 8 < 256 := by rw [shiftRight_8]; omega
  have hu : (c >>> 8) ^^^ b < 256 := by
    have h1 : c >>> 8 < 2 ^ 8 := by norm_num; exact hhi
    have h2 : b < 2 ^ 8 := by norm_num; exact hb
    have h3 := Nat.xor_lt_two_pow h1 h2
    norm_num at h3
    exact h3
  have hlo : c &&& 0xFF < 256 := by rw [land_ff]; omega
  rw [byte_decomp c b, crc_iterate_xor 8 _ _ (by norm_num; omega)]
  unfold crc_hqx_step crc_table
  have huff : ((c >>> 8) ^^^ b) &&& 0xFF = (c >>> 8) ^^^ b := by
    rw [land_ff]
    omega
  rw [huff, shl8_land_ff00, Nat.xor_comm]

theorem calc_crc_eq_spec (data : List Nat) (h : ∀ b ∈ data, b < 256) :
    calc_crc data = crc16_spec data := by
  unfold calc_crc crc16_spec
  have aux : ∀ (l : List Nat) (c : Nat), c < 65536 → (∀ b ∈ l, b < 256) →
      l.foldl crc_hqx_step c =
        l.foldl (fun c b => crc_round^[8] (c ^^^ (b <<< 8))) c := by
    intro l
    induction l with
    | nil => intro c _ _; rfl
    | cons b t ih =>
      intro c hc hl
      have hb : b < 256 := hl b (List.mem_cons_self b t)
      simp only [List.foldl_cons]
      rw [← crc_step_eq c b hc hb]
      exact ih _ (by rw [crc_step_eq c b hc hb]; exact crc_hqx_step_lt c b)
        (fun x hx => hl x (List.mem_cons_of_mem b hx))
  exact aux data 0xFFFF (by norm_num) h

/-! ### Transfer loop lemmas -/

theorem checksum_step_mod (a b : Nat) : checksum_step a b = (a + b) % 65536 := by
  unfold checksum_step
  exact land_ffff _

theorem foldl_checksum_step (l : List Nat) :
    ∀ cs : Nat, cs < 65536 → l.foldl checksum_step cs = (cs + l.sum) % 65536 := by
  induction l with
  | nil => intro cs h; simp [Nat.mod_eq_of_lt h]
  | cons b t ih =>
    intro cs h
    simp only [List.foldl_cons, List.sum_cons]
    rw [checksum_step_mod, ih _ (Nat.mod_lt _ (by norm_num)), Nat.mod_add_mod]
    omega

theorem nat_sum_append (l₁ l₂ : List Nat) : (l₁ ++ l₂).sum = l₁.sum + l₂.sum := by
  induction l₁ with
  | nil => simp
  | cons b t ih => simp [ih, Nat.add_assoc]

theorem transferLoopAux_fsize_zero (mf : Option Nat) (buff : List Nat)
    (resp : Nat → Int) (fuel k cs adrs index : Nat) :
    transferLoopAux mf buff resp fuel k cs adrs index 0 = ⟨[], cs, none⟩ := by
  cases fuel <;> rfl

theorem transferLoopAux_fuel_zero (mf : Option Nat) (buff : List Nat)
    (resp : Nat → Int) (k cs adrs index m : Nat) :
    transferLoopAux mf buff resp 0 k cs adrs index (m + 1) = ⟨[], cs, none⟩ := rfl

theorem transferLoopAux_step (mf : Option Nat) (buff : List Nat)
    (resp : Nat → Int) (fuel k cs adrs index m : Nat) :
    transferLoopAux mf buff resp (fuel + 1) k cs adrs index (m + 1) =
      (if resp k ≠ 0 then
        ⟨[block_payload (opcodeOf mf) adrs
            ((buff.drop index).take (loop_num (m + 1)))],
          ((buff.drop index).take (loop_num (m + 1))).foldl checksum_step cs,
          some (resp k)⟩
      else
        ⟨block_payload (opcodeOf mf) adrs
            ((buff.drop index).take (loop_num (m + 1))) ::
            (transferLoopAux mf buff resp fuel (k + 1)
              (((buff.drop index).take (loop_num (m + 1))).foldl checksum_step cs)
              (adrs + loop_num (m + 1)) (index + loop_num (m + 1))
              (m + 1 - loop_num (m + 1))).blocks,
          (transferLoopAux mf buff resp fuel (k + 1)
            (((buff.drop index).take (loop_num (m + 1))).foldl checksum_step cs)
            (adrs + loop_num (m + 1)) (index + loop_num (m + 1))
            (m + 1 - loop_num (m + 1))).checksum,
          (transferLoopAux mf buff resp fuel (k + 1)
            (((buff.drop index).take (loop_num (m + 1))).foldl checksum_step cs)
            (adrs + loop_num (m + 1)) (index + loop_num (m + 1))
            (m + 1 - loop_num (m + 1))).aborted⟩) := rfl

theorem loop_num_eq_min (fs : Nat) : loop_num fs = min 256 fs := by
  rw [loop_num, Nat.min_def]

theorem loop_num_bounds {fs : Nat} (h : 0 < fs) :
    1 ≤ loop_num fs ∧ loop_num fs ≤ fs := by
  rw [loop_num]
  split <;> omega

theorem loop_num_large {fs : Nat} (h : 256 ≤ fs) : loop_num fs = 256 := by
  rw [loop_num]
  simp [h]

theorem transferLoopAux_success (mf : Option Nat) (buff : List Nat)
    (resp : Nat → Int) (hresp : ∀ i, resp i = 0) :
    ∀ fuel fsize k cs adrs index, fsize ≤ fuel → cs < 65536 →
      (transferLoopAux mf buff resp fuel k cs adrs index fsize).aborted = none ∧
      (transferLoopAux mf buff resp fuel k cs adrs index fsize).checksum =
        (cs + ((buff.drop index).take fsize).sum) % 65536 := by
  intro fuel
  induction fuel with
  | zero =>
    intro fsize k cs adrs index hle hcs
    have h0 : fsize = 0 := by omega
    subst h0
    rw [transferLoopAux_fsize_zero]
    exact ⟨rfl, by simp [Nat.mod_eq_of_lt hcs]⟩
  | succ fuel ih =>
    intro fsize k cs adrs index hle hcs
    cases fsize with
    | zero =>
      rw [transferLoopAux_fsize_zero]
      exact ⟨rfl, by simp [Nat.mod_eq_of_lt hcs]⟩
    | succ m =>
      rw [transferLoopAux_step, if_neg (by simp [hresp k])]
      have hnb := loop_num_bounds (show 0 < m + 1 by omega)
      have hcs2 : ((buff.drop index).take (loop_num (m + 1))).foldl checksum_step cs =
          (cs + ((buff.drop index).take (loop_num (m + 1))).sum) % 65536 :=
        foldl_checksum_step _ cs hcs
      have hcs2lt :
          ((buff.drop index).take (loop_num (m + 1))).foldl checksum_step cs < 65536 := by
        rw [hcs2]
        exact Nat.mod_lt _ (by norm_num)
      obtain ⟨hab, hck⟩ := ih (m + 1 - loop_num (m + 1)) (k + 1)
        (((buff.drop index).take (loop_num (m + 1))).foldl checksum_step cs)
        (adrs + loop_num (m + 1)) (index + loop_num (m + 1)) (by omega) hcs2lt
      have hsplit : (buff.drop index).take (m + 1) =
          (buff.drop index).take (loop_num (m + 1)) ++
            (buff.drop (index + loop_num (m + 1))).take (m + 1 - loop_num (m + 1)) := by
        rw [← List.drop_drop,
          ← List.take_add (buff.drop index) (loop_num (m + 1)) (m + 1 - loop_num (m + 1))]
        congr 1
        omega
      have hfinal :
          (transferLoopAux mf buff resp fuel (k + 1)
            (((buff.drop index).take (loop_num (m + 1))).foldl checksum_step cs)
            (adrs + loop_num (m + 1)) (index + loop_num (m + 1))
            (m + 1 - loop_num (m + 1))).checksum =
          (cs + ((buff.drop index).take (m + 1)).sum) % 65536 := by
        rw [hck, hcs2, hsplit, nat_sum_append]
        omega
      exact ⟨hab, hfinal⟩

theorem transferLoopAux_abort (mf : Option Nat) (buff : List Nat)
    (resp : Nat → Int) :
    ∀ j fuel k cs adrs index fsize, fsize ≤ fuel → 256 * j < fsize →
      (∀ i, i < j → resp (k + i) = 0) → resp (k + j) ≠ 0 →
      (transferLoopAux mf buff resp fuel k cs adrs index fsize).aborted =
          some (resp (k + j)) ∧
      (transferLoopAux mf buff resp fuel k cs adrs index fsize).blocks.length =
          j + 1 := by
  intro j
  induction j with
  | zero =>
    intro fuel k cs adrs index fsize hle hsz _ hj
    cases fuel with
    | zero => omega
    | succ fuel =>
      obtain ⟨m, rfl⟩ : ∃ m, fsize = m + 1 := ⟨fsize - 1, by omega⟩
      have hk : resp k ≠ 0 := by simpa using hj
      rw [transferLoopAux_step, if_pos hk]
      constructor <;> simp
  | succ j ih =>
    intro fuel k cs adrs index fsize hle hsz hprev hj
    cases fuel with
    | zero => omega
    | succ fuel =>
      obtain ⟨m, rfl⟩ : ∃ m, fsize = m + 1 := ⟨fsize - 1, by omega⟩
      have h0 : resp k = 0 := by simpa using hprev 0 (by omega)
      rw [transferLoopAux_step, if_neg (by simp [h0])]
      have hnb : loop_num (m + 1) = 256 := loop_num_large (by omega)
      have hshift : ∀ i, i < j → resp (k + 1 + i) = 0 := by
        intro i hi
        have h := hprev (i + 1) (by omega)
        rwa [show k + (i + 1) = k + 1 + i from by omega] at h
      have hjs : resp (k + 1 + j) ≠ 0 := by
        rwa [show k + (j + 1) = k + 1 + j from by omega] at hj
      obtain ⟨hab, hlen⟩ := ih fuel (k + 1)
        (((buff.drop index).take (loop_num (m + 1))).foldl checksum_step cs)
        (adrs + loop_num (m + 1)) (index + loop_num (m + 1))
        (m + 1 - loop_num (m + 1)) (by omega) (by omega) hshift hjs
      have hab2 :
          (transferLoopAux mf buff resp fuel (k + 1)
            (((buff.drop index).take (loop_num (m + 1))).foldl checksum_step cs)
            (adrs + loop_num (m + 1)) (index + loop_num (m + 1))
            (m + 1 - loop_num (m + 1))).aborted = some (resp (k + (j + 1))) := by
        rw [hab]
        rw [show k + 1 + j = k + (j + 1) from by omega]
      have hlen2 :
          (block_payload (opcodeOf mf) adrs
              ((buff.drop index).take (loop_num (m + 1))) ::
            (transferLoopAux mf buff resp fuel (k + 1)
              (((buff.drop index).take (loop_num (m + 1))).foldl checksum_step cs)
              (adrs + loop_num (m + 1)) (index + loop_num (m + 1))
              (m + 1 - loop_num (m + 1))).blocks).length = j + 1 + 1 := by
        rw [List.length_cons, hlen]
      exact ⟨hab2, hlen2⟩

theorem transferLoopAux_blocks_head (mf : Option Nat) (buff : List Nat)
    (resp : Nat → Int) :
    ∀ fuel k cs adrs index fsize blk,
      blk ∈ (transferLoopAux mf buff resp fuel k cs adrs index fsize).blocks →
      blk.head? = some (opcodeOf mf) := by
  intro fuel
  induction fuel with
  | zero =>
    intro k cs adrs index fsize blk hmem
    cases fsize with
    | zero => rw [transferLoopAux_fsize_zero] at hmem; simp at hmem
    | succ m => rw [transferLoopAux_fuel_zero] at hmem; simp at hmem
  | succ fuel ih =>
    intro k cs adrs index fsize blk hmem
    cases fsize with
    | zero => rw [transferLoopAux_fsize_zero] at hmem; simp at hmem
    | succ m =>
      rw [transferLoopAux_step] at hmem
      by_cases hr : resp k ≠ 0
      · rw [if_pos hr] at hmem
        simp at hmem
        subst hmem
        rfl
      · rw [if_neg hr] at hmem
        simp at hmem
        rcases hmem with h | h
        · subst h; rfl
        · exact ih _ _ _ _ _ _ h

theorem loRa_update_blocks (mf : Option Nat) (a : Nat) (buff : List Nat)
    (resp : Nat → Int) (f : Int) :
    (loRa_update mf a buff resp f).blocks =
      (transferLoopAux mf buff resp buff.length 0 0 a 0 buff.length).blocks := by
  unfold loRa_update
  cases h : (transferLoopAux mf buff resp buff.length 0 0 a 0 buff.length).aborted <;>
    simp [h]

theorem loRa_update_of_aborted {mf : Option Nat} {a : Nat} {buff : List Nat}
    {resp : Nat → Int} {f : Int} {v : Int}
    (h : (transferLoopAux mf buff resp buff.length 0 0 a 0 buff.length).aborted =
      some v) :
    (loRa_update mf a buff resp f).result = v ∧
    (loRa_update mf a buff resp f).finalPayload = none := by
  unfold loRa_update
  simp [h]

theorem loRa_update_of_success {mf : Option Nat} {a : Nat} {buff : List Nat}
    {resp : Nat → Int} {f : Int}
    (h : (transferLoopAux mf buff resp buff.length 0 0 a 0 buff.length).aborted =
      none) :
    (loRa_update mf a buff resp f).result = f ∧
    (loRa_update mf a buff resp f).checksum =
      (transferLoopAux mf buff resp buff.length 0 0 a 0 buff.length).checksum ∧
    (loRa_update mf a buff resp f).finalPayload =
      some [BSL_CMD_LOAD_PC, 0x00,
        (loRa_update mf a buff resp f).checksum &&& 0xFF,
        ((loRa_update mf a buff resp f).checksum >>> 8) &&& 0xFF] := by
  unfold loRa_update
  simp [h]

/-! ### Response reader lemmas -/

theorem recv_loop_complete :
    ∀ (bytes : List Nat) (rest : List (Option Nat)) (n : Nat),
      n ≤ bytes.length →
      recv_loop (bytes.map some ++ rest) n = some (bytes.take n) := by
  intro bytes
  induction bytes with
  | nil =>
    intro rest n h
    have hn : n = 0 := by simpa using h
    subst hn
    simp [recv_loop]
  | cons b bs ih =>
    intro rest n h
    cases n with
    | zero => simp [recv_loop]
    | succ n =>
      simp only [List.map_cons, List.cons_append, List.take_succ_cons]
      show recv_loop (some b :: (bs.map some ++ rest)) (n + 1) = some (b :: bs.take n)
      rw [recv_loop, ih rest n (by simpa using h)]
      rfl

theorem recv_loop_timeout :
    ∀ (bytes : List Nat) (rest : List (Option Nat)) (n : Nat),
      bytes.length < n →
      recv_loop (bytes.map some ++ none :: rest) n = none := by
  intro bytes
  induction bytes with
  | nil =>
    intro rest n h
    obtain ⟨m, rfl⟩ : ∃ m, n = m + 1 := ⟨n - 1, by simp at h; omega⟩
    simp [recv_loop]
  | cons b bs ih =>
    intro rest n h
    obtain ⟨m, rfl⟩ : ∃ m, n = m + 1 := ⟨n - 1, by omega⟩
    simp only [List.map_cons, List.cons_append]
    show recv_loop (some b :: (bs.map some ++ none :: rest)) (m + 1) = none
    rw [recv_loop, ih rest m (by simpa using h)]
    rfl

theorem recv_loop_exhausted :
    ∀ (bytes : List Nat) (n : Nat),
      bytes.length < n → recv_loop (bytes.map some) n = none := by
  intro bytes
  induction bytes with
  | nil =>
    intro n h
    obtain ⟨m, rfl⟩ : ∃ m, n = m + 1 := ⟨n - 1, by simp at h; omega⟩
    simp [recv_loop]
  | cons b bs ih =>
    intro n h
    obtain ⟨m, rfl⟩ : ∃ m, n = m + 1 := ⟨n - 1, by omega⟩
    simp only [List.map_cons]
    show recv_loop (some b :: bs.map some) (m + 1) = none
    rw [recv_loop, ih m (by simpa using h)]
    rfl

theorem recv_loop_zero (stream : List (Option Nat)) :
    recv_loop stream 0 = some [] := by
  match stream with
  | [] => rfl
  | none :: _ => rfl
  | some _ :: _ => rfl

theorem recv_loop_mem :
    ∀ (n : Nat) (stream : List (Option Nat)) (buff : List Nat),
      recv_loop stream n = some buff → ∀ b ∈ buff, some b ∈ stream := by
  intro n
  induction n with
  | zero =>
    intro stream buff h b hb
    rw [recv_loop_zero] at h
    have hbuff : buff = [] := by simpa using h.symm
    subst hbuff
    simp at hb
  | succ n ih =>
    intro stream buff h b hb
    match stream with
    | [] => simp [recv_loop] at h
    | none :: rest => simp [recv_loop] at h
    | some c :: rest =>
      rw [recv_loop] at h
      cases hrec : recv_loop rest n with
      | none => rw [hrec] at h; simp at h
      | some t =>
        rw [hrec] at h
        simp at h
        subst h
        rcases List.mem_cons.mp hb with hcb | hbt
        · subst hcb; exact List.mem_cons_self _ _
        · exact List.mem_cons_of_mem _ (ih rest t hrec b hbt)

theorem recv_loop_length :
    ∀ (n : Nat) (stream : List (Option Nat)) (buff : List Nat),
      recv_loop stream n = some buff → buff.length = n := by
  intro n
  induction n with
  | zero =>
    intro stream buff h
    rw [recv_loop_zero] at h
    have hbuff : buff = [] := by simpa using h.symm
    subst hbuff
    rfl
  | succ n ih =>
    intro stream buff h
    match stream with
    | [] => simp [recv_loop] at h
    | none :: rest => simp [recv_loop] at h
    | some c :: rest =>
      rw [recv_loop] at h
      cases hrec : recv_loop rest n with
      | none => rw [hrec] at h; simp at h
      | some t =>
        rw [hrec] at h
        simp at h
        subst h
        simp [ih rest t hrec]

theorem recv_response_of_loop_none {stream : List (Option Nat)} {n : Nat}
    (h : recv_loop stream n = none) : recv_response stream n = some (-2) := by
  unfold recv_response
  rw [h]

theorem recv_response_of_loop_some {stream : List (Option Nat)} {n : Nat}
    {buff : List Nat} (h : recv_loop stream n = some buff) :
    recv_response stream n = decode_response n buff := by
  unfold recv_response
  rw [h]

/-! ### DFU handshake lemmas -/

theorem dfu_run_succ (replies : Nat → Int) (n : Nat) :
    dfu_run replies (n + 1) = dfu_step replies (dfu_run replies n) := by
  unfold dfu_run
  rw [Function.iterate_succ_apply']

theorem dfu_never_reply (n : Nat) :
    (dfu_run (fun _ => -1) n).done = false ∧
    (dfu_run (fun _ => -1) n).probes = n ∧
    (dfu_run (fun _ => -1) n).waitFlag = decide (1 ≤ n) ∧
    (dfu_run (fun _ => -1) n).notices = min n 1 := by
  induction n with
  | zero => exact ⟨rfl, rfl, rfl, rfl⟩
  | succ n ih =>
    obtain ⟨hd, hp, hw, hn⟩ := ih
    rw [dfu_run_succ]
    unfold dfu_step
    rw [hd]
    have hrep : ¬ ((-1 : Int) = 0x55) := by decide
    simp only [Bool.false_eq_true, if_false, hrep, ite_false]
    unfold dfu_notice
    cases n with
    | zero =>
      simp at hw
      simp at hn
      simp [hw, hp, hn]
    | succ m =>
      have hw2 : (dfu_run (fun _ => -1) (m + 1)).waitFlag = true := by
        rw [hw]
        simp
      have hn2 : (dfu_run (fun _ => -1) (m + 1)).notices = 1 := by
        rw [hn]
        omega
      simp [hw2, hp, hn2]

theorem dfu_notices_bound (replies : Nat → Int) (n : Nat) :
    ((dfu_run replies n).waitFlag = false → (dfu_run replies n).notices = 0) ∧
    (dfu_run replies n).notices ≤ 1 := by
  induction n with
  | zero => exact ⟨fun _ => rfl, by norm_num [dfu_run, dfu_init]⟩
  | succ n ih =>
    obtain ⟨h1, h2⟩ := ih
    rw [dfu_run_succ]
    unfold dfu_step dfu_notice
    by_cases hd : (dfu_run replies n).done = true
    · simp [hd, h2]
      exact h1
    · by_cases h55 : replies (dfu_run replies n).readIdx = 0x55
      · by_cases haa : replies ((dfu_run replies n).readIdx + 1) = 0xaa
        · simp [hd, h55, haa, h2]
          exact h1
        · by_cases hw : (dfu_run replies n).waitFlag = true
          · simp [hd, h55, haa, hw, h2]
          · have hw2 : (dfu_run replies n).waitFlag = false := by simpa using hw
            simp [hd, h55, haa, hw2, h1 hw2]
      · by_cases hw : (dfu_run replies n).waitFlag = true
        · simp [hd, h55, hw, h2]
        · have hw2 : (dfu_run replies n).waitFlag = false := by simpa using hw
          simp [hd, h55, hw2, h1 hw2]

/-! ### Claim theorems -/

theorem transferLoopAux_step_blocks (mf : Option Nat) (buff : List Nat)
    (resp : Nat → Int) (fuel k cs adrs index m : Nat) (h : resp k = 0) :
    (transferLoopAux mf buff resp (fuel + 1) k cs adrs index (m + 1)).blocks =
      block_payload (opcodeOf mf) adrs
          ((buff.drop index).take (loop_num (m + 1))) ::
        (transferLoopAux mf buff resp fuel (k + 1)
          (((buff.drop index).take (loop_num (m + 1))).foldl checksum_step cs)
          (adrs + loop_num (m + 1)) (index + loop_num (m + 1))
          (m + 1 - loop_num (m + 1))).blocks := by
  rw [transferLoopAux_step, if_neg (by simp [h])]

/-- C1: while the remaining byte count is positive, each iteration takes
`num = min(256, remaining)` bytes at the read offset, sends the payload
`opcode :: addr_lo :: addr_mid :: addr_hi :: data`, and on a zero status
advances the address, the read offset and the consumed count by `num`
(first conjunct); a 300-byte image yields exactly the two blocks
`num = 256` at the base address and `num = 44` at base+256, with no padding
(second conjunct). -/
theorem C1_transfer_loop_blocks :
    (∀ (mf : Option Nat) (buff : List Nat) (resp : Nat → Int)
        (fuel k cs adrs index fsize : Nat), 0 < fsize → resp k = 0 →
      transferLoopAux mf buff resp (fuel + 1) k cs adrs index fsize =
        ⟨block_payload (opcodeOf mf) adrs
            ((buff.drop index).take (min 256 fsize)) ::
            (transferLoopAux mf buff resp fuel (k + 1)
              (((buff.drop index).take (min 256 fsize)).foldl checksum_step cs)
              (adrs + min 256 fsize) (index + min 256 fsize)
              (fsize - min 256 fsize)).blocks,
          (transferLoopAux mf buff resp fuel (k + 1)
            (((buff.drop index).take (min 256 fsize)).foldl checksum_step cs)
            (adrs + min 256 fsize) (index + min 256 fsize)
            (fsize - min 256 fsize)).checksum,
          (transferLoopAux mf buff resp fuel (k + 1)
            (((buff.drop index).take (min 256 fsize)).foldl checksum_step cs)
            (adrs + min 256 fsize) (index + min 256 fsize)
            (fsize - min 256 fsize)).aborted⟩) ∧
    (∀ (mf : Option Nat) (buff : List Nat) (base : Nat), buff.length = 300 →
      (loRa_update mf base buff (fun _ => 0) 0).blocks =
        [block_payload (opcodeOf mf) base (buff.take 256),
         block_payload (opcodeOf mf) (base + 256) ((buff.drop 256).take 44)]) := by
  constructor
  · intro mf buff resp fuel k cs adrs index fsize hpos hk
    obtain ⟨m, rfl⟩ : ∃ m, fsize = m + 1 := ⟨fsize - 1, by omega⟩
    simp only [← loop_num_eq_min]
    rw [transferLoopAux_step, if_neg (by simp [hk])]
  · intro mf buff base hlen
    rw [loRa_update_blocks, hlen]
    rw [show (300 : Nat) = 299 + 1 from rfl]
    rw [transferLoopAux_step_blocks mf buff (fun _ => 0) 299 0 0 base 0 299 rfl]
    rw [show loop_num (299 + 1) = 256 from by decide]
    simp only [show (0 : Nat) + 1 = 1 from rfl, show (0 : Nat) + 256 = 256 from rfl,
      show 299 + 1 - 256 = 44 from rfl, List.drop_zero]
    rw [show (44 : Nat) = 43 + 1 from rfl]
    rw [show (299 : Nat) = 298 + 1 from rfl]
    rw [transferLoopAux_step_blocks mf buff (fun _ => 0) 298 1 _ (base + 256) 256 43 rfl]
    rw [show loop_num (43 + 1) = 44 from by decide]
    rw [show 43 + 1 - 44 = 0 from rfl, transferLoopAux_fsize_zero]

theorem C1_transfer_loop_blocks_witness :
    (List.replicate 300 7 : List Nat).length = 300 ∧
    (loRa_update none 4096 (List.replicate 300 7) (fun _ => 0) 0).blocks =
      [block_payload (opcodeOf none) 4096 ((List.replicate 300 7).take 256),
       block_payload (opcodeOf none) (4096 + 256)
         (((List.replicate 300 7).drop 256).take 44)] :=
  ⟨by simp only [List.length_replicate],
    C1_transfer_loop_blocks.2 none (List.replicate 300 7) 4096
      (by simp only [List.length_replicate])⟩

/-- C2: the running checksum starts at 0 and is updated per payload byte by
`acc := (acc + byte) mod 65536` (first conjunct), so after a complete
transfer it equals the image sum mod 65536 (second conjunct); the finalize
payload is `[0x17, 0x00, checksum_lo, checksum_hi]` little-endian (third
and fourth conjuncts) and its response status is the overall result
(fifth conjunct). -/
theorem C2_checksum_and_finalize (mf : Option Nat) (base : Nat)
    (buff : List Nat) (resp : Nat → Int) (finalStatus : Int)
    (hresp : ∀ i, resp i = 0) :
    (∀ a b : Nat, checksum_step a b = (a + b) % 65536) ∧
    (loRa_update mf base buff resp finalStatus).checksum = buff.sum % 65536 ∧
    (loRa_update mf base buff resp finalStatus).finalPayload =
      some [BSL_CMD_LOAD_PC, 0x00,
        (loRa_update mf base buff resp finalStatus).checksum &&& 0xFF,
        ((loRa_update mf base buff resp finalStatus).checksum >>> 8) &&& 0xFF] ∧
    ((loRa_update mf base buff resp finalStatus).checksum &&& 0xFF) +
      256 * (((loRa_update mf base buff resp finalStatus).checksum >>> 8) &&& 0xFF) =
      (loRa_update mf base buff resp finalStatus).checksum ∧
    (loRa_update mf base buff resp finalStatus).result = finalStatus := by
  obtain ⟨hab, hck⟩ := transferLoopAux_success mf buff resp hresp
    buff.length buff.length 0 0 base 0 (Nat.le_refl _) (by norm_num)
  have hck2 : (transferLoopAux mf buff resp buff.length 0 0 base 0
      buff.length).checksum = buff.sum % 65536 := by
    rw [hck]
    simp
  obtain ⟨hres, hcks, hfp⟩ := loRa_update_of_success (f := finalStatus) hab
  have hcs : (loRa_update mf base buff resp finalStatus).checksum =
      buff.sum % 65536 := by rw [hcks, hck2]
  refine ⟨checksum_step_mod, hcs, hfp, ?_, hres⟩
  have hlt : (loRa_update mf base buff resp finalStatus).checksum < 65536 := by
    rw [hcs]
    exact Nat.mod_lt _ (by norm_num)
  rw [land_ff, land_ff, shiftRight_8]
  omega

theorem C2_checksum_and_finalize_witness :
    (loRa_update none 8192 [1, 2, 3] (fun _ => 0) 5).checksum =
      [1, 2, 3].sum % 65536 :=
  (C2_checksum_and_finalize none 8192 [1, 2, 3] (fun _ => 0) 5 (fun _ => rfl)).2.1

/-- C3: a non-zero block status aborts the transfer at once: the status is
returned unchanged, exactly k = j+1 blocks have been sent when block index
j (0-based) fails, and the finalize command is never sent. -/
theorem C3_abort_on_nonzero_status (mf : Option Nat) (base : Nat)
    (buff : List Nat) (resp : Nat → Int) (finalStatus : Int) (j : Nat)
    (hj : 256 * j < buff.length) (hprev : ∀ i, i < j → resp i = 0)
    (hnz : resp j ≠ 0) :
    (loRa_update mf base buff resp finalStatus).result = resp j ∧
    (loRa_update mf base buff resp finalStatus).blocks.length = j + 1 ∧
    (loRa_update mf base buff resp finalStatus).finalPayload = none := by
  obtain ⟨hab, hlen⟩ := transferLoopAux_abort mf buff resp j
    buff.length 0 0 base 0 buff.length (Nat.le_refl _) hj
    (by intro i hi; simpa using hprev i hi) (by simpa using hnz)
  rw [show (0 + j) = j from by omega] at hab
  obtain ⟨hres, hfp⟩ := loRa_update_of_aborted (f := finalStatus) hab
  exact ⟨hres, by rw [loRa_update_blocks]; exact hlen, hfp⟩

theorem C3_abort_on_nonzero_status_witness :
    (loRa_update none 8192 (List.replicate 300 1)
        (fun i => if i = 0 then 0 else 7) 0).result = 7 ∧
    (loRa_update none 8192 (List.replicate 300 1)
        (fun i => if i = 0 then 0 else 7) 0).blocks.length = 2 ∧
    (loRa_update none 8192 (List.replicate 300 1)
        (fun i => if i = 0 then 0 else 7) 0).finalPayload = none :=
  C3_abort_on_nonzero_status none 8192 (List.replicate 300 1)
    (fun i => if i = 0 then 0 else 7) 0 1
    (by simp only [List.length_replicate]; omega) (by decide) (by decide)

/-- C6: the DFU handshake loop is unbounded and the waiting notice is
printed exactly once: against a device that never replies, after n ≥ 1
iterations the handshake is still not done, n probes have been sent and
the notice was printed exactly once; for any device behaviour the notice
is never printed more than once. -/
theorem C6_handshake_unbounded_notice_once (n : Nat) (h : 1 ≤ n) :
    (dfu_run (fun _ => -1) n).done = false ∧
    (dfu_run (fun _ => -1) n).probes = n ∧
    (dfu_run (fun _ => -1) n).notices = 1 ∧
    (∀ (replies : Nat → Int) (m : Nat), (dfu_run replies m).notices ≤ 1) := by
  obtain ⟨hd, hp, _, hn⟩ := dfu_never_reply n
  refine ⟨hd, hp, ?_, fun replies m => (dfu_notices_bound replies m).2⟩
  rw [hn]
  omega

theorem C6_handshake_unbounded_notice_once_witness :
    1 ≤ 3 ∧ (dfu_run (fun _ => -1) 3).done = false ∧
      (dfu_run (fun _ => -1) 3).probes = 3 :=
  ⟨by decide, (C6_handshake_unbounded_notice_once 3 (by decide)).1,
    (C6_handshake_unbounded_notice_once 3 (by decide)).2.1⟩

/-- C9: the CRC function (CPython's table-driven `crc_hqx` with initial
value 0xFFFF) returns 0xFFFF on the empty sequence and coincides on byte
sequences with the spec's CRC-CCITT: polynomial 0x1021, initial register
0xFFFF, MSB-first, no final XOR, no reflection. -/
theorem C9_crc_ccitt :
    calc_crc [] = 0xFFFF ∧
    ∀ data : List Nat, (∀ b ∈ data, b < 256) → calc_crc data = crc16_spec data :=
  ⟨rfl, calc_crc_eq_spec⟩

theorem C9_crc_ccitt_witness :
    (∀ b ∈ [0x12, 0x34, 0xAB], b < 256) ∧
      calc_crc [0x12, 0x34, 0xAB] = crc16_spec [0x12, 0x34, 0xAB] :=
  ⟨by decide, C9_crc_ccitt.2 [0x12, 0x34, 0xAB] (by decide)⟩

/-- C4: `recv_response` reads exactly `expected_len` bytes one at a time;
a missing byte (timeout or exhausted input) yields the sentinel -2; with
all bytes read, a second byte different from the header 0x80 yields -3;
otherwise the status is `(byte0 << 8) | (byte5 if expected_len > 5 else 0)`,
returned unchanged. -/
theorem C4_recv_response_decode (n : Nat) (bytes : List Nat)
    (rest : List (Option Nat)) :
    (bytes.length < n →
      recv_response (bytes.map some ++ none :: rest) n = some (-2)) ∧
    (bytes.length < n → recv_response (bytes.map some) n = some (-2)) ∧
    (bytes.length = n → 2 ≤ n → bytes.getD 1 0 ≠ BSL_HEADER →
      recv_response (bytes.map some ++ rest) n = some (-3)) ∧
    (bytes.length = n → 1 ≤ n → (2 ≤ n → bytes.getD 1 0 = BSL_HEADER) →
      recv_response (bytes.map some ++ rest) n =
        some (Int.ofNat ((bytes.getD 0 0 <<< 8) |||
          (if 5 < n then bytes.getD 5 0 else 0)))) := by
  refine ⟨?_, ?_, ?_, ?_⟩
  · intro h
    exact recv_response_of_loop_none (recv_loop_timeout bytes rest n h)
  · intro h
    exact recv_response_of_loop_none (recv_loop_exhausted bytes n h)
  · intro hlen h2 hbad
    subst hlen
    have hc := recv_loop_complete bytes rest bytes.length (Nat.le_refl _)
    rw [List.take_length] at hc
    rw [recv_response_of_loop_some hc]
    unfold decode_response
    rw [if_pos ⟨h2, hbad⟩]
  · intro hlen h1 hgood
    subst hlen
    have hc := recv_loop_complete bytes rest bytes.length (Nat.le_refl _)
    rw [List.take_length] at hc
    rw [recv_response_of_loop_some hc]
    unfold decode_response
    rw [if_neg (by rintro ⟨ha, hb⟩; exact hb (hgood ha))]
    cases h0 : bytes[0]? with
    | none =>
      exfalso
      rw [List.getElem?_eq_none_iff] at h0
      omega
    | some b0 =>
      have hb0 : bytes.getD 0 0 = b0 := by
        simp [List.getD_eq_getElem?_getD, h0]
      by_cases h5 : 5 < bytes.length
      · rw [if_pos h5]
        cases h5b : bytes[5]? with
        | none =>
          exfalso
          rw [List.getElem?_eq_none_iff] at h5b
          omega
        | some b5 =>
          have hb5 : bytes.getD 5 0 = b5 := by
            simp [List.getD_eq_getElem?_getD, h5b]
          simp only [Option.some_bind, Option.map_some']
          rw [if_pos h5, hb0, hb5]
      · rw [if_neg h5]
        simp only [Option.map_some']
        rw [if_neg h5, hb0]
        simp

theorem C4_recv_response_decode_witness :
    ([0, 0x80, 0, 0, 0, 4, 0, 0] : List Nat).length = 8 ∧
    recv_response (([0, 0x80, 0, 0, 0, 4, 0, 0] : List Nat).map some ++ []) 8 =
      some (Int.ofNat ((([0, 0x80, 0, 0, 0, 4, 0, 0] : List Nat).getD 0 0 <<< 8) |||
        (if 5 < 8 then ([0, 0x80, 0, 0, 0, 4, 0, 0] : List Nat).getD 5 0 else 0))) :=
  ⟨by decide,
    (C4_recv_response_decode 8 [0, 0x80, 0, 0, 0, 4, 0, 0] []).2.2.2
      (by decide) (by decide) (fun _ => by decide)⟩

/-- C10: every status decoded from a byte stream (bytes being octets, i.e.
each below 256) lies in [0, 65535] when it is not one of the local
sentinels, so a negative return of `recv_response` always and solely
denotes a local failure: -2 (timeout) or -3 (malformed frame). -/
theorem C10_status_range (stream : List (Option Nat)) (n : Nat) (s : Int)
    (hbytes : ∀ o ∈ stream, ∀ b : Nat, o = some b → b < 256)
    (hres : recv_response stream n = some s) :
    (s = -2 ∨ s = -3 ∨ (0 ≤ s ∧ s ≤ 65535)) ∧ (s < 0 → s = -2 ∨ s = -3) := by
  have main : s = -2 ∨ s = -3 ∨ (0 ≤ s ∧ s ≤ 65535) := by
    cases hloop : recv_loop stream n with
    | none =>
      rw [recv_response_of_loop_none hloop] at hres
      left
      exact (Option.some_inj.mp hres).symm
    | some buff =>
      rw [recv_response_of_loop_some hloop] at hres
      have hmem : ∀ b ∈ buff, b < 256 := fun b hb =>
        hbytes (some b) (recv_loop_mem n stream buff hloop b hb) b rfl
      unfold decode_response at hres
      by_cases hhdr : n ≥ 2 ∧ buff.getD 1 0 ≠ BSL_HEADER
      · rw [if_pos hhdr] at hres
        right; left
        exact (Option.some_inj.mp hres).symm
      · rw [if_neg hhdr] at hres
        right; right
        by_cases h5 : n > 5
        · rw [if_pos h5] at hres
          cases h0 : buff[0]? with
          | none => rw [h0] at hres; simp at hres
          | some b0 =>
            cases h5b : buff[5]? with
            | none => rw [h0, h5b] at hres; simp at hres
            | some b5 =>
              rw [h0, h5b] at hres
              simp only [Option.some_bind, Option.map_some',
                Option.some_inj] at hres
              have hb0 : b0 < 256 := hmem b0 (List.getElem?_mem h0)
              have hb5 : b5 < 256 := hmem b5 (List.getElem?_mem h5b)
              have hv : (b0 <<< 8) ||| b5 < 65536 := by
                have hs : b0 <<< 8 < 2 ^ 16 := by
                  rw [shiftLeft_8]
                  norm_num
                  omega
                have hb5p : b5 < 2 ^ 16 := by norm_num; omega
                have := Nat.or_lt_two_pow hs hb5p
                norm_num at this
                exact this
              have hse : s = (((b0 <<< 8) ||| b5 : Nat) : Int) := hres.symm
              rw [hse]
              omega
        · rw [if_neg h5] at hres
          cases h0 : buff[0]? with
          | none => rw [h0] at hres; simp at hres
          | some b0 =>
            rw [h0] at hres
            simp only [Option.map_some', Option.some_inj] at hres
            have hb0 : b0 < 256 := hmem b0 (List.getElem?_mem h0)
            have hv : b0 <<< 8 < 65536 := by
              rw [shiftLeft_8]
              omega
            have hse : s = ((b0 <<< 8 : Nat) : Int) := hres.symm
            rw [hse]
            omega
  exact ⟨main, fun hneg => by rcases main with h | h | ⟨h0, _⟩ <;> omega⟩

theorem C10_status_range_witness :
    (∀ o ∈ ([some 3, some 0x80, none] : List (Option Nat)),
      ∀ b : Nat, o = some b → b < 256) ∧
    ((-2 : Int) = -2 ∨ (-2 : Int) = -3 ∨ (0 ≤ (-2 : Int) ∧ (-2 : Int) ≤ 65535)) :=
  ⟨by decide,
    (C10_status_range [some 3, some 0x80, none] 8 (-2)
      (by decide) (by decide)).1⟩

theorem send_command_data_eq (p : List Nat) :
    send_command_data p =
      BSL_HEADER :: (p.length &&& 0xFF) :: ((p.length >>> 8) &&& 0xFF) ::
        (p ++ [calc_crc p &&& 0xFF, (calc_crc p >>> 8) &&& 0xFF]) := by
  unfold send_command_data
  rw [List.append_assoc]
  rfl

/-- C5 counterexample: as stated ("for every payload p, bytes 1..2 decode
little-endian to len(p)") the claim fails at the concrete payload of 65536
zero bytes, whose frame length field decodes to 0, not 65536: the code
truncates the length to 16 bits. -/
theorem C5_frame_length_counterexample :
    ¬ ((send_command_data (List.replicate 65536 0)).getD 1 0 +
        256 * (send_command_data (List.replicate 65536 0)).getD 2 0 =
      (List.replicate 65536 0 : List Nat).length) := by
  intro h
  rw [send_command_data_eq] at h
  simp only [List.getD_cons_succ, List.getD_cons_zero,
    List.length_replicate] at h
  rw [land_ff, land_ff, shiftRight_8] at h
  omega

/-- C5 (amended): for every payload p the frame is
`[0x80, len_lo, len_hi] ++ p ++ [crc_lo, crc_hi]`: total length len(p)+5,
header 0x80, bytes 1..2 decode little-endian to len(p) mod 65536 — hence
to len(p) itself whenever len(p) < 65536, which holds for every frame this
tool sends (payloads are at most 260 bytes) — the embedded payload is p,
and the trailing two bytes decode little-endian to the CRC-16-CCITT
computed over p only. -/
theorem C5_frame_format_amended (p : List Nat) :
    (send_command_data p).length = p.length + 5 ∧
    (send_command_data p).getD 0 0 = BSL_HEADER ∧
    (send_command_data p).getD 1 0 + 256 * (send_command_data p).getD 2 0 =
      p.length % 65536 ∧
    (p.length < 65536 →
      (send_command_data p).getD 1 0 + 256 * (send_command_data p).getD 2 0 =
        p.length) ∧
    ((send_command_data p).drop 3).take p.length = p ∧
    (send_command_data p).getD (p.length + 3) 0 +
      256 * (send_command_data p).getD (p.length + 4) 0 = calc_crc p := by
  rw [send_command_data_eq]
  have hdecode :
      (p.length &&& 0xFF) + 256 * ((p.length >>> 8) &&& 0xFF) =
        p.length % 65536 := by
    rw [land_ff, land_ff, shiftRight_8]
    omega
  refine ⟨?_, rfl, ?_, ?_, ?_, ?_⟩
  · simp only [List.length_cons, List.length_append, List.length_cons,
      List.length_nil]
  · simpa only [List.getD_cons_succ, List.getD_cons_zero] using hdecode
  · intro hlt
    simp only [List.getD_cons_succ, List.getD_cons_zero]
    rw [hdecode, Nat.mod_eq_of_lt hlt]
  · show (p ++ [calc_crc p &&& 0xFF, (calc_crc p >>> 8) &&& 0xFF]).take p.length = p
    exact List.take_left p _
  · have e3 : p.length + 3 = (p.length + 2) + 1 := rfl
    have e2 : p.length + 2 = (p.length + 1) + 1 := rfl
    have e4 : p.length + 4 = (p.length + 3) + 1 := rfl
    rw [e4, e3, e2]
    simp only [List.getD_cons_succ]
    have hd : (p ++ [calc_crc p &&& 0xFF, (calc_crc p >>> 8) &&& 0xFF]).getD
        p.length 0 = calc_crc p &&& 0xFF := by
      have hx : (p ++ [calc_crc p &&& 0xFF, (calc_crc p >>> 8) &&& 0xFF])[p.length]? =
          some (calc_crc p &&& 0xFF) := by
        rw [List.getElem?_append_right (Nat.le_refl _)]
        simp
      simp [List.getD_eq_getElem?_getD, hx]
    have he : (p ++ [calc_crc p &&& 0xFF, (calc_crc p >>> 8) &&& 0xFF]).getD
        (p.length + 1) 0 = (calc_crc p >>> 8) &&& 0xFF := by
      have hx : (p ++ [calc_crc p &&& 0xFF,
          (calc_crc p >>> 8) &&& 0xFF])[p.length + 1]? =
          some ((calc_crc p >>> 8) &&& 0xFF) := by
        rw [List.getElem?_append_right (by omega)]
        simp [show p.length + 1 - p.length = 1 from by omega]
      simp [List.getD_eq_getElem?_getD, hx]
    rw [hd, he, land_ff, land_ff, shiftRight_8]
    have hc := calc_crc_lt p
    omega

theorem C5_frame_format_amended_witness :
    ([10, 20, 30] : List Nat).length < 65536 ∧
    (send_command_data [10, 20, 30]).getD 1 0 +
      256 * (send_command_data [10, 20, 30]).getD 2 0 =
      ([10, 20, 30] : List Nat).length :=
  ⟨by decide, (C5_frame_format_amended [10, 20, 30]).2.2.2.1 (by decide)⟩

theorem load_firmware_some (buff : List Nat) :
    load_firmware (some buff) =
      (if buff.length < FILE_MIN_SIZE ∨ buff.length > FILE_MAX_SIZE then
        (none, -2)
      else if (buff.drop 0xb8).take MAGIC_BYTES.length ≠ MAGIC_BYTES then
        (none, -2)
      else (some buff, Int.ofNat buff.length)) := rfl

theorem load_firmware_sizes_ok {buff : List Nat} (h1 : 4096 ≤ buff.length)
    (h2 : buff.length ≤ 120000) :
    ¬ (buff.length < FILE_MIN_SIZE ∨ buff.length > FILE_MAX_SIZE) := by
  simp only [FILE_MIN_SIZE, FILE_MAX_SIZE]
  omega

theorem magic_len : MAGIC_BYTES.length = 7 := rfl

/-- C8: firmware loading accepts exactly the buffers whose size is in
[4096, 120000] and whose 7 bytes at offset 0xB8 equal the magic signature;
an unopenable file gives -1; a size failure (e.g. 4095 bytes, regardless
of content) or a signature failure (any one signature byte off) gives -2. -/
theorem C8_load_firmware_validation (buff : List Nat) :
    load_firmware none = (none, -1) ∧
    (buff.length < 4096 → load_firmware (some buff) = (none, -2)) ∧
    (120000 < buff.length → load_firmware (some buff) = (none, -2)) ∧
    (4096 ≤ buff.length → buff.length ≤ 120000 →
      (load_firmware (some buff) = (some buff, Int.ofNat buff.length) ↔
        (buff.drop 0xb8).take 7 = MAGIC_BYTES)) ∧
    (4096 ≤ buff.length → buff.length ≤ 120000 →
      (buff.drop 0xb8).take 7 ≠ MAGIC_BYTES →
      load_firmware (some buff) = (none, -2)) ∧
    (∀ i, i < 7 → 4096 ≤ buff.length → buff.length ≤ 120000 →
      buff.getD (0xb8 + i) 0 ≠ MAGIC_BYTES.getD i 0 →
      load_firmware (some buff) = (none, -2)) := by
  have hreject : ∀ (h1 : 4096 ≤ buff.length) (h2 : buff.length ≤ 120000),
      (buff.drop 0xb8).take 7 ≠ MAGIC_BYTES →
      load_firmware (some buff) = (none, -2) := by
    intro h1 h2 hne
    rw [load_firmware_some]
    rw [if_neg (load_firmware_sizes_ok h1 h2),
      if_pos (by rw [magic_len]; exact hne)]
  refine ⟨rfl, ?_, ?_, ?_, hreject, ?_⟩
  · intro h
    rw [load_firmware_some, if_pos (show buff.length < FILE_MIN_SIZE ∨
      buff.length > FILE_MAX_SIZE from Or.inl h)]
  · intro h
    rw [load_firmware_some, if_pos (show buff.length < FILE_MIN_SIZE ∨
      buff.length > FILE_MAX_SIZE from Or.inr h)]
  · intro h1 h2
    by_cases ht : (buff.drop 0xb8).take 7 = MAGIC_BYTES
    · have hacc : load_firmware (some buff) = (some buff, Int.ofNat buff.length) := by
        rw [load_firmware_some]
        rw [if_neg (load_firmware_sizes_ok h1 h2),
          if_neg (by rw [magic_len]; exact fun hne => hne ht)]
      exact ⟨fun _ => ht, fun _ => hacc⟩
    · constructor
      · intro he
        rw [hreject h1 h2 ht] at he
        exact absurd he (by simp)
      · intro hmagic
        exact absurd hmagic ht
  · intro i hi h1 h2 hbyte
    apply hreject h1 h2
    intro he
    apply hbyte
    have hg : ((buff.drop 0xb8).take 7).getD i 0 = buff.getD (0xb8 + i) 0 := by
      simp only [List.getD_eq_getElem?_getD]
      rw [List.getElem?_take_of_lt hi, List.getElem?_drop]
    rw [← hg, he]

theorem C8_load_firmware_validation_witness :
    4096 ≤ (List.replicate 184 0 ++ MAGIC_BYTES ++ List.replicate 3905 0 :
        List Nat).length ∧
    load_firmware (some (List.replicate 184 0 ++ MAGIC_BYTES ++
        List.replicate 3905 0)) =
      (some (List.replicate 184 0 ++ MAGIC_BYTES ++ List.replicate 3905 0),
        Int.ofNat (List.replicate 184 0 ++ MAGIC_BYTES ++
          List.replicate 3905 0 : List Nat).length) :=
  ⟨by simp only [List.length_append, List.length_replicate, magic_len]; omega,
    ((C8_load_firmware_validation _).2.2.2.1
      (by simp only [List.length_append, List.length_replicate, magic_len]; omega)
      (by simp only [List.length_append, List.length_replicate, magic_len]; omega)).mpr
      (by
        rw [show (List.replicate 184 0 ++ MAGIC_BYTES ++ List.replicate 3905 0 :
            List Nat).drop 0xb8 = MAGIC_BYTES ++ List.replicate 3905 0 from by
          rw [List.append_assoc]
          exact List.drop_left' (by simp only [List.length_replicate])]
        rw [← magic_len, List.take_left])⟩

set_option maxRecDepth 1000000 in
/-- C7: in init mode the mode flag is unset so every block uses the write
opcode 0x10 (never verify), the base address is 0x01FE00, and the image is
a synthetic 512-byte all-zero buffer — produced without touching any file,
hence exempt from the signature check — transferred as exactly two 256-byte
blocks at 0x01FE00 and 0x01FF00. -/
theorem C7_init_mode :
    mode_flag_of "init" = none ∧
    flash_adrs_of "init" = 0x01FE00 ∧
    (∀ file : Option (List Nat),
      run_image "init" file = (some (List.replicate 512 0), 512)) ∧
    (∀ (resp : Nat → Int) (blk : List Nat),
      blk ∈ (loRa_update (mode_flag_of "init") (flash_adrs_of "init")
        (List.replicate INIT_SIZE 0) resp 0).blocks →
      blk.head? = some BSL_CMD_RX_DATA_BLOCK) ∧
    (loRa_update none INIT_ADRS (List.replicate INIT_SIZE 0)
        (fun _ => 0) 0).blocks =
      [block_payload BSL_CMD_RX_DATA_BLOCK 0x01FE00 (List.replicate 256 0),
       block_payload BSL_CMD_RX_DATA_BLOCK 0x01FF00 (List.replicate 256 0)] := by
  refine ⟨rfl, rfl, ?_, ?_, ?_⟩
  · intro file
    unfold run_image
    rw [if_pos rfl]
    rfl
  · intro resp blk hmem
    rw [loRa_update_blocks] at hmem
    have h := transferLoopAux_blocks_head (mode_flag_of "init")
      (List.replicate INIT_SIZE 0) resp _ _ _ _ _ _ blk hmem
    simpa using h
  · decide

set_option maxRecDepth 1000000 in
theorem C7_init_mode_witness :
    block_payload BSL_CMD_RX_DATA_BLOCK 0x01FE00 (List.replicate 256 0) ∈
      (loRa_update (mode_flag_of "init") (flash_adrs_of "init")
        (List.replicate INIT_SIZE 0) (fun _ => 0) 0).blocks ∧
    (block_payload BSL_CMD_RX_DATA_BLOCK 0x01FE00
      (List.replicate 256 0)).head? = some BSL_CMD_RX_DATA_BLOCK :=
  ⟨by decide,
    C7_init_mode.2.2.2.1 (fun _ => 0)
      (block_payload BSL_CMD_RX_DATA_BLOCK 0x01FE00 (List.replicate 256 0))
      (by decide)⟩

end LRA1
